import Mathlib

/-!
Verification of the task lifecycle orchestrator in
`src/scripts/manage_tasks.py` (classes `ValidationRunner` and
`TaskManager`).  Python strings are modelled as `String` / `List Char`,
directories of task files as association lists from file name to file
content, external process invocations as explicit outcome values, and
`datetime.now()` timestamps as explicit string parameters.
-/

namespace ManageTasks

/-! ### Python string primitives

Each helper mirrors the corresponding CPython `str` operation on the
ASCII inputs this program manipulates.  Scanning functions take explicit
fuel (always instantiated with the list length) so that every definition
is structurally recursive and evaluates inside the kernel. -/

/-- ASCII case folding, as `str.lower()` acts on ASCII text. -/
def lowerChar (c : Char) : Char :=
  if 65 ≤ c.toNat ∧ c.toNat ≤ 90 then Char.ofNat (c.toNat + 32) else c

/-- ASCII upper casing, as `str.upper()` acts on ASCII text. -/
def upperChar (c : Char) : Char :=
  if 97 ≤ c.toNat ∧ c.toNat ≤ 122 then Char.ofNat (c.toNat - 32) else c

/-- The characters `str.strip()` removes: space, \t, \n, \r, \x0b, \x0c. -/
def pySpace (c : Char) : Bool :=
  c = ' ' ∨ c = '\t' ∨ c = '\n' ∨ c = '\r' ∨ c = Char.ofNat 11 ∨ c = Char.ofNat 12

/-- `str.strip()` on a character list. -/
def stripL (l : List Char) : List Char :=
  ((l.dropWhile pySpace).reverse.dropWhile pySpace).reverse

/-- `s.strip()`. -/
def pyStrip (s : String) : String := ⟨stripL s.toList⟩

/-- `s.lower()`. -/
def pyLower (s : String) : String := ⟨s.toList.map lowerChar⟩

/-- `s.upper()`. -/
def pyUpper (s : String) : String := ⟨s.toList.map upperChar⟩

/-- `s.split(sep)` for a one-character separator, on character lists. -/
def splitOnCharL (sep : Char) : List Char → List (List Char)
  | [] => [[]]
  | c :: cs =>
    match splitOnCharL sep cs with
    | [] => [[]]
    | h :: t => if c = sep then [] :: h :: t else (c :: h) :: t

/-- `s.split('\n')`. -/
def splitLines (s : String) : List String :=
  (splitOnCharL '\n' s.toList).map fun l => ⟨l⟩

/-- Substring test on character lists: `listContains hay pat` is Python's
`pat in hay`. -/
def listContains : List Char → List Char → Bool
  | [], pat => pat.isEmpty
  | c :: t, pat => pat.isPrefixOf (c :: t) || listContains t pat

/-- Python's `pat in hay` on strings. -/
def pyIn (pat hay : String) : Bool := listContains hay.toList pat.toList

/-- Number of positions of `hay` at which `pat` starts (used to state
"exactly one entry per transition" properties). -/
def countSub : List Char → List Char → Nat
  | [], pat => if pat.isEmpty then 1 else 0
  | c :: t, pat => (if pat.isPrefixOf (c :: t) then 1 else 0) + countSub t pat

/-- Occurrence count of `pat` in `hay` on strings. -/
def pyCount (pat hay : String) : Nat := countSub hay.toList pat.toList

/-- One fuelled step of `str.replace(old, new)`: replaces every
non-overlapping occurrence of `pat` left to right.  `pat` is non-empty at
every use site, so fuel equal to the list length suffices. -/
def replaceAllGo (pat repl : List Char) : Nat → List Char → List Char
  | 0, s => s
  | _ + 1, [] => []
  | fuel + 1, c :: cs =>
    if pat ≠ [] ∧ pat.isPrefixOf (c :: cs) then
      repl ++ replaceAllGo pat repl fuel ((c :: cs).drop pat.length)
    else
      c :: replaceAllGo pat repl fuel cs

/-- `s.replace(old, new)` on character lists. -/
def replaceAllL (pat repl s : List Char) : List Char := replaceAllGo pat repl s.length s

/-- `s.replace(old, new)`. -/
def pyReplace (s pat repl : String) : String := ⟨replaceAllL pat.toList repl.toList s.toList⟩

/-- `", ".join(l)` and friends. -/
def joinSep (sep : String) : List String → String
  | [] => ""
  | [x] => x
  | x :: xs => x ++ sep ++ joinSep sep xs

/-! ### The `ValidationRunner` class (manage_tasks.py lines 20–247)

Each `run_*` check shells out to an external command; the outcome of that
invocation (timeout, a raised exception, or a completed process with an
exit code, stdout and stderr) is the `ProcOutcome` the embedded check
function consumes. -/

/-- Outcome of one `subprocess.run` call. -/
inductive ProcOutcome where
  | timeout
  | exc (msg : String)
  | ran (returncode : Int) (stdoutS stderrS : String)
deriving DecidableEq

/-- The per-check result dict: `success`, `errors`, `warnings`. -/
structure CheckResult where
  success : Bool
  errors : List String
  warnings : List String
deriving DecidableEq

/-- The aggregated results dict of `run_all_validations` (the float
`duration` field is wall-clock time and is not modelled). -/
structure ValidationResult where
  success : Bool
  errors : List String
  warnings : List String
  checks_run : List String
deriving DecidableEq

/-- Classify the stderr lines of `cargo check` (lines 104–111): a line
containing `error:` (case-insensitively) is an error, otherwise one
containing `warning:` is a warning; lines are stripped. -/
def parseCargoLines (stderrS : String) : List String × List String :=
  (splitLines stderrS).foldl
    (fun acc line =>
      if listContains (pyLower line).toList "error:".toList then
        (acc.1 ++ [pyStrip line], acc.2)
      else if listContains (pyLower line).toList "warning:".toList then
        (acc.1, acc.2 ++ [pyStrip line])
      else acc)
    ([], [])

/-- Classify the stderr lines of `cargo clippy` (lines 148–152): unlike
`parseCargoLines`, `warning:` is tested before `error:`. -/
def parseClippyLines (stderrS : String) : List String × List String :=
  (splitLines stderrS).foldl
    (fun acc line =>
      if listContains (pyLower line).toList "warning:".toList then
        (acc.1, acc.2 ++ [pyStrip line])
      else if listContains (pyLower line).toList "error:".toList then
        (acc.1 ++ [pyStrip line], acc.2)
      else acc)
    ([], [])

/-- `ValidationRunner.run_rust_check` (lines 85–130). -/
def run_rust_check : ProcOutcome → CheckResult
  | .timeout => ⟨false, ["Cargo check timed out after 2 minutes"], []⟩
  | .exc m => ⟨false, ["Cargo check failed: " ++ m], []⟩
  | .ran rc _out err =>
    if rc = 0 then ⟨true, [], []⟩
    else
      let p := parseCargoLines err
      ⟨false, if p.1 = [] then [pyStrip err] else p.1, p.2⟩

/-- `ValidationRunner.run_clippy_check` (lines 132–171). -/
def run_clippy_check : ProcOutcome → CheckResult
  | .timeout => ⟨false, ["Cargo clippy timed out after 2 minutes"], []⟩
  | .exc m => ⟨false, ["Cargo clippy failed: " ++ m], []⟩
  | .ran rc _out err =>
    let p := parseClippyLines err
    ⟨decide (rc = 0), p.1, p.2⟩

/-- `ValidationRunner.run_doc_validation` (lines 173–209). -/
def run_doc_validation : ProcOutcome → CheckResult
  | .timeout => ⟨false, ["Documentation validation timed out after 1 minute"], []⟩
  | .exc m => ⟨false, ["Documentation validation failed: " ++ m], []⟩
  | .ran rc out err =>
    if rc = 0 then ⟨true, [], []⟩
    else ⟨false, [if err ≠ "" then pyStrip err else pyStrip out], []⟩

/-- `ValidationRunner.run_format_check` (lines 211–247). -/
def run_format_check : ProcOutcome → CheckResult
  | .timeout => ⟨false, ["Format check timed out after 30 seconds"], []⟩
  | .exc m => ⟨false, ["Format check failed: " ++ m], []⟩
  | .ran rc _out _err =>
    if rc = 0 then ⟨true, [], []⟩
    else ⟨false, ["Code formatting issues found. Run `cargo fmt` to fix."], []⟩

/-- The cargo-check block of `run_all_validations` (lines 42–51): record
the check, absorb its errors, and in strict mode reclassify its warnings
as errors. -/
def stageCargo (strict : Bool) (cargo : CheckResult) (r : ValidationResult) :
    ValidationResult :=
  let r1 := { r with checks_run := r.checks_run ++ ["cargo_check"] }
  let r2 := if ¬cargo.success then
      { r1 with success := false, errors := r1.errors ++ cargo.errors }
    else r1
  if cargo.warnings ≠ [] then
    let rx := { r2 with warnings := r2.warnings ++ cargo.warnings }
    if strict then
      { rx with success := false, errors := rx.errors ++ cargo.warnings.map (fun w => "Warning (strict mode): " ++ w) }
    else rx
  else r2

/-- The clippy block of `run_all_validations` (lines 54–63). -/
def stageClippy (strict : Bool) (clippy : CheckResult) (r : ValidationResult) :
    ValidationResult :=
  let r1 := { r with checks_run := r.checks_run ++ ["clippy"] }
  let r2 := if ¬clippy.success then
      { r1 with success := false, errors := r1.errors ++ clippy.errors }
    else r1
  if clippy.warnings ≠ [] then
    let rx := { r2 with warnings := r2.warnings ++ clippy.warnings }
    if strict then
      { rx with success := false, errors := rx.errors ++ clippy.warnings.map (fun w => "Clippy warning (strict mode): " ++ w) }
    else rx
  else r2

/-- The documentation-validation block of `run_all_validations` (lines
66–72): warnings are carried forward but never reclassified, even in
strict mode. -/
def stageDoc (doc : CheckResult) (r : ValidationResult) : ValidationResult :=
  let r1 := { r with checks_run := r.checks_run ++ ["doc_validation"] }
  let r2 := if ¬doc.success then
      { r1 with success := false, errors := r1.errors ++ doc.errors }
    else r1
  if doc.warnings ≠ [] then
    { r2 with warnings := r2.warnings ++ doc.warnings }
  else r2

/-- The format-check block of `run_all_validations` (lines 75–79): its
warnings are never collected at all. -/
def stageFormat (fmtc : CheckResult) (r : ValidationResult) : ValidationResult :=
  let r1 := { r with checks_run := r.checks_run ++ ["format_check"] }
  if ¬fmtc.success then
    { r1 with success := false, errors := r1.errors ++ fmtc.errors }
  else r1

/-- `ValidationRunner.run_all_validations` (lines 27–83), as a function of
`strict_mode` and the four check results: the four blocks applied in
source order to the initial `results` dict. -/
def run_all_validations (strict : Bool) (cargo clippy doc fmtc : CheckResult) :
    ValidationResult :=
  stageFormat fmtc (stageDoc doc (stageClippy strict clippy
    (stageCargo strict cargo ⟨true, [], [], []⟩)))

/-! ### The task store

`TaskManager` keeps task files in the three directories `tasks/todo`,
`tasks/in-progress` and `tasks/completed`; each directory is modelled as
an association list from file name to file content. -/

/-- One of the three status directories. -/
inductive Dir where
  | todo
  | inProgress
  | completed
deriving DecidableEq

/-- The three status directories of a `TaskManager`. -/
structure TaskStore where
  todo : List (String × String)
  in_progress : List (String × String)
  completed : List (String × String)
deriving DecidableEq

/-- The listing of one status directory. -/
def TaskStore.get (st : TaskStore) : Dir → List (String × String)
  | .todo => st.todo
  | .inProgress => st.in_progress
  | .completed => st.completed

/-- Replace the listing of one status directory. -/
def TaskStore.setDir (st : TaskStore) (d : Dir) (l : List (String × String)) : TaskStore :=
  match d with
  | .todo => { st with todo := l }
  | .inProgress => { st with in_progress := l }
  | .completed => { st with completed := l }

/-- Look a file name up in an association list. -/
def lookupKey (n : String) : List (String × String) → Option String
  | [] => none
  | (k, v) :: t => if k = n then some v else lookupKey n t

/-- Delete a file name from an association list. -/
def eraseKey (n : String) : List (String × String) → List (String × String)
  | [] => []
  | (k, v) :: t => if k = n then eraseKey n t else (k, v) :: eraseKey n t

/-- The content of file `n` in directory `d`, if it exists. -/
def lookupFile (st : TaskStore) (d : Dir) (n : String) : Option String :=
  lookupKey n (st.get d)

/-- Remove file `n` from directory `d`. -/
def removeAt (st : TaskStore) (d : Dir) (n : String) : TaskStore :=
  st.setDir d (eraseKey n (st.get d))

/-- Write file `n` with content `c` into directory `d` (a POSIX rename
overwrites an existing file of the same name). -/
def insertAt (st : TaskStore) (d : Dir) (n : String) (c : String) : TaskStore :=
  st.setDir d ((n, c) :: eraseKey n (st.get d))

/-! ### `TaskManager.update_task_status` (lines 493–516) -/

/-- Python's `\w` on the ASCII text this program writes. -/
def wordChar (c : Char) : Bool := c.isAlphanum || c = '_'

/-- The literal part of the pattern `\*\*Status\*\*: \w+`. -/
def statusPat : List Char := "**Status**: ".toList

/-- Fuelled scan of `re.sub(r'\*\*Status\*\*: \w+', '**Status**: ' + new, content)`:
at each position, if the literal `**Status**: ` is followed by at least one
word character, the literal and the maximal word-character run are replaced
and the scan continues after the match; fuel equal to the list length
suffices because each step consumes at least one character. -/
def subStatusGo (repl : List Char) : Nat → List Char → List Char
  | 0, s => s
  | _ + 1, [] => []
  | fuel + 1, c :: cs =>
    if statusPat.isPrefixOf (c :: cs) then
      let rest := (c :: cs).drop statusPat.length
      if (rest.takeWhile wordChar).isEmpty then c :: subStatusGo repl fuel cs
      else statusPat ++ repl ++ subStatusGo repl fuel (rest.dropWhile wordChar)
    else c :: subStatusGo repl fuel cs

/-- `re.sub(r'\*\*Status\*\*: \w+', f'**Status**: {new_status.upper().replace("-", " ")}', content)`. -/
def subStatus (newStatusUpper : String) (content : String) : String :=
  ⟨subStatusGo newStatusUpper.toList content.toList.length content.toList⟩

/-- The progress-log placeholder comment the update hooks onto. -/
def progressMarker : String := "<!-- Add progress updates here -->"

/-- `TaskManager.update_task_status` (lines 493–516) on the file content:
rewrite the status line, then insert the progress-log entry
`- <timestamp>: Status changed to <new_status>` right after the placeholder
comment (when the content has a `## Progress Log` section).  `ts` stands for
`datetime.now().strftime('%Y-%m-%d %H:%M:%S')`. -/
def update_task_status (content : String) (new_status : String) (ts : String) : String :=
  let statusValue := pyReplace (pyUpper new_status) "-" " "
  let c1 := subStatus statusValue content
  let entry := "- " ++ ts ++ ": Status changed to " ++ new_status
  if pyIn "## Progress Log" c1 then
    pyReplace c1 progressMarker (progressMarker ++ "\n" ++ entry)
  else c1

/-! ### `TaskManager.auto_commit_and_push` (lines 391–461)

The git side effect is modelled by the outcomes of the individual git
commands the method runs. -/

/-- Outcomes of the git invocations inside `auto_commit_and_push`:
`git status` exit code, whether `git add .` (run with `check=True`)
succeeds, the stdout of `git diff --cached --name-only` after staging,
and the exit codes of `git commit` and `git push`. -/
structure GitEnv where
  statusRc : Int
  addOk : Bool
  stagedOutput : String
  commitRc : Int
  pushRc : Int
deriving DecidableEq

/-- The commit message built at lines 425–428 (`nowS` is the formatted
`datetime.now()`). -/
def commit_message (task_name action nowS : String) : String :=
  "Task " ++ action ++ ": " ++ task_name ++ "\n\n" ++
  "✅ " ++ action ++ " task: " ++ task_name ++ "\n" ++
  "📅 " ++ nowS ++ "\n" ++
  "🔧 Task management: Auto-commit on task " ++ action

/-- `TaskManager.auto_commit_and_push` (lines 391–461): `False` when not in
a git repository, when `git add` raises, or when the commit fails; `True`
when there is nothing to commit or the commit succeeds — whether or not the
push succeeds (a push failure only prints a warning, line 454). -/
def auto_commit_and_push (g : GitEnv) : Bool :=
  if g.statusRc ≠ 0 then false
  else if ¬g.addOk then false
  else if pyStrip g.stagedOutput = "" then true
  else if g.commitRc ≠ 0 then false
  else if g.pushRc = 0 then true
  else true

/-! ### `TaskManager.move_task` (lines 463–491) -/

/-- The keys of the `status_dirs` dict (line 465). -/
def statusDirs : List String := ["todo", "in-progress", "completed"]

/-- The directory a valid status string names. -/
def dirOfStatus (s : String) : Dir :=
  if s = "todo" then .todo
  else if s = "in-progress" then .inProgress
  else .completed

/-- `TaskManager.move_task` (lines 463–491).  `d`/`name` locate the task
file; returns the method's boolean result and the updated store.  An
invalid status or a missing file returns `False` with nothing mutated;
otherwise the content is rewritten by `update_task_status`, the file is
renamed into the target directory, and when `autoCommit` is set the result
of `auto_commit_and_push` is computed — and discarded (line 489): the
method returns `True` regardless. -/
def move_task (st : TaskStore) (d : Dir) (name : String) (new_status : String)
    (autoCommit : Bool) (g : GitEnv) (ts : String) : Bool × TaskStore :=
  if new_status ∈ statusDirs then
    match lookupFile st d name with
    | none => (false, st)
    | some content =>
      let c2 := update_task_status content new_status ts
      let st1 := insertAt (removeAt st d name) (dirOfStatus new_status) name c2
      let _pub := if autoCommit then auto_commit_and_push g else true
      (true, st1)
  else (false, st)

/-! ### `TaskManager.create_task_from_issue` (lines 280–350)

Only the generated file content matters to the lifecycle claims; the
template below is the f-string of lines 297–345 with its interpolated
fields as parameters (`created` is `datetime.now().strftime('%Y-%m-%d
%H:%M:%S')`, `createdDate` is `datetime.now().strftime('%Y-%m-%d')`). -/

/-- The Markdown content of a freshly created task file. -/
def task_content (title task_id component sectionS priority created source_file
    source_line description createdDate : String) : String :=
  "# " ++ title ++ "\n\n## Task Information\n\n**Task ID**: `" ++ task_id ++
  "`  \n**Component**: " ++ component ++ "  \n**Section**: " ++ sectionS ++
  "  \n**Priority**: " ++ priority ++ "  \n**Status**: TODO  \n**Created**: " ++
  created ++ "  \n**Source**: `" ++ source_file ++ "` (line " ++ source_line ++
  ")  \n\n## Description\n\n" ++ description ++
  "\n\n## Acceptance Criteria\n\n- [ ] Implementation completed according to specifications\n" ++
  "- [ ] Code follows project coding standards and best practices\n" ++
  "- [ ] Appropriate tests written and passing (unit, integration, performance as applicable)\n" ++
  "- [ ] Documentation updated to reflect changes\n" ++
  "- [ ] Code reviewed and approved by team\n" ++
  "- [ ] Security considerations addressed (if applicable)\n\n" ++
  "## Implementation Notes\n\n" ++
  "<!-- Add specific implementation notes, design decisions, or technical requirements here -->\n\n" ++
  "## Testing Strategy\n\n<!-- Describe the testing approach for this task -->\n\n" ++
  "## Progress Log\n\n<!-- Add progress updates here -->\n- " ++ createdDate ++
  ": Task created from implementation checklist\n\n" ++
  "## Definition of Done\n\n- [ ] All acceptance criteria met\n" ++
  "- [ ] Code merged to main branch\n- [ ] CI/CD pipeline passing\n" ++
  "- [ ] Stakeholder approval received\n\n---\n\n" ++
  "*Generated from implementation checklist: `" ++ source_file ++ "` (line " ++
  source_line ++ ")*\n"

/-! ### `TaskManager._is_task_yolo_suitable` (lines 836–875) -/

/-- The `suitable_indicators` list (lines 839–849). -/
def suitable_indicators : List String :=
  ["unit test", "documentation", "comment", "format", "style", "lint", "typo",
   "readme", "example"]

/-- The `risky_indicators` list (lines 852–861). -/
def risky_indicators : List String :=
  ["security", "authentication", "network protocol", "data migration",
   "breaking change", "api change", "database", "critical"]

/-- The two `for` loops of lines 866–874: scan a keyword list against the
lowercased content, returning at the first hit. -/
def scanKeywords (lower : List Char) : List String → Bool
  | [] => false
  | k :: ks => if listContains lower k.toList then true else scanKeywords lower ks

/-- `TaskManager._is_task_yolo_suitable` (lines 836–875): risky keywords are
checked first and veto; otherwise any suitable keyword accepts; otherwise
the task is rejected. -/
def _is_task_yolo_suitable (task_content : String) : Bool :=
  let content_lower := (pyLower task_content).toList
  if scanKeywords content_lower risky_indicators then false
  else scanKeywords content_lower suitable_indicators

/-! ### `TaskManager._find_yolo_tasks` (lines 805–834) -/

/-- `self.todo_dir.glob("*.md")`: the `.md` entries of the todo listing. -/
def globMd (l : List (String × String)) : List (String × String) :=
  l.filter fun p => ".md".toList.isSuffixOf p.1.toList

/-- The candidate loop of lines 812–832: stop once `max_tasks` candidates
are collected; apply the component filter (case-insensitive substring of
the whole content) and the suitability filter. -/
def findLoop (maxTasks : Int) (component_filter : Option String) :
    List (String × String) → List String → List String
  | [], acc => acc
  | (name, content) :: rest, acc =>
    if (acc.length : Int) ≥ maxTasks then acc
    else
      let keep := match component_filter with
        | some f => listContains (pyLower content).toList (pyLower f).toList
        | none => true
      if keep then
        if _is_task_yolo_suitable content then
          findLoop maxTasks component_filter rest (acc ++ [name])
        else findLoop maxTasks component_filter rest acc
      else findLoop maxTasks component_filter rest acc

/-- `TaskManager._find_yolo_tasks` (lines 805–834). -/
def find_yolo_tasks (st : TaskStore) (maxTasks : Int) (component_filter : Option String) :
    List String :=
  findLoop maxTasks component_filter (globMd st.todo) []

/-! ### `TaskManager._execute_task_safely` (lines 877–944) and
`TaskManager.yolo_mode` (lines 635–803)

The session's interaction with the outside world — the four external
checks of each validation run, the git commands of the publish side
effect, an unexpected exception raised while a task is being worked on,
the wall-clock deadline test at the top of each loop iteration, and the
`datetime.now()` timestamps — is collected into a `YoloEnv`.  Post-task
validation outcomes, exceptions, deadline tests and git outcomes are
indexed by the attempt number; timestamps by a running move counter. -/

/-- The four `subprocess.run` outcomes feeding one `run_all_validations`. -/
structure ChecksOutcome where
  cargo : ProcOutcome
  clippy : ProcOutcome
  doc : ProcOutcome
  fmtc : ProcOutcome
deriving DecidableEq

/-- One validation run composed from process outcomes. -/
def runVal (strict : Bool) (c : ChecksOutcome) : ValidationResult :=
  run_all_validations strict (run_rust_check c.cargo) (run_clippy_check c.clippy)
    (run_doc_validation c.doc) (run_format_check c.fmtc)

/-- The session's environment. -/
structure YoloEnv where
  preChecks : ChecksOutcome
  postChecks : Nat → ChecksOutcome
  excAt : Nat → Option String
  timeHit : Nat → Bool
  gitAt : Nat → GitEnv
  tsAt : Nat → String

/-- The result dict of `_execute_task_safely` (lines 879–885; the
unexpected-exception message is `error`). -/
structure ExecResult where
  success : Bool
  files_modified : Int
  error : Option String
  validation_results : List (String × ValidationResult)
  validation_warnings : List String
deriving DecidableEq

/-- The constant file-modification estimate of line 900. -/
def estimated_files : Int := 1

/-- `TaskManager._execute_task_safely` (lines 877–944) for attempt `i` on
the todo file `name`: move it to in-progress (the move's boolean result is
ignored, line 889), simulate the work (an unexpected exception there is
`excAt i`, handled by the `except` block of lines 934–942), enforce the
file budget, run post-task validation unless skipped, and move to
completed (with auto-commit) or back to todo.  Returns the result dict,
the store and the advanced move counter. -/
def execute_task_safely (env : YoloEnv) (i : Nat) (st : TaskStore) (name : String)
    (maxFiles : Int) (strictV skipV : Bool) (ck : Nat) :
    ExecResult × TaskStore × Nat :=
  let st1 := (move_task st .todo name "in-progress" false (env.gitAt i) (env.tsAt ck)).2
  let ck1 := ck + 1
  match env.excAt i with
  | some m =>
    if (lookupFile st1 .inProgress name).isSome then
      let st2 := (move_task st1 .inProgress name "todo" false (env.gitAt i) (env.tsAt ck1)).2
      (⟨false, 0, some m, [], []⟩, st2, ck1 + 1)
    else (⟨false, 0, some m, [], []⟩, st1, ck1)
  | none =>
    if estimated_files > maxFiles then
      let st2 := (move_task st1 .inProgress name "todo" false (env.gitAt i) (env.tsAt ck1)).2
      (⟨false, 0,
        some ("Task would modify " ++ toString estimated_files ++ " files (limit: " ++
          toString maxFiles ++ ")"), [], []⟩, st2, ck1 + 1)
    else
      if skipV then
        let st2 := (move_task st1 .inProgress name "completed" true (env.gitAt i) (env.tsAt ck1)).2
        (⟨true, estimated_files, none, [], []⟩, st2, ck1 + 1)
      else
        let postVal := runVal strictV (env.postChecks i)
        let stage := [("post-task", postVal)]
        if ¬postVal.success then
          let st2 := (move_task st1 .inProgress name "todo" false (env.gitAt i) (env.tsAt ck1)).2
          (⟨false, estimated_files,
            some ("Post-task validation failed: " ++ joinSep ", " postVal.errors),
            stage, []⟩, st2, ck1 + 1)
        else
          let st2 := (move_task st1 .inProgress name "completed" true (env.gitAt i) (env.tsAt ck1)).2
          (⟨true, estimated_files, none, stage, postVal.warnings⟩, st2, ck1 + 1)

/-- An entry of the session's `errors` list: plain strings (pre-flight
errors, timeout, interrupt) and per-task `{'task': ..., 'error': ...}`
dicts. -/
inductive ErrEntry where
  | plain (s : String)
  | taskErr (task : String) (error : String)
deriving DecidableEq

/-- The results dict of `yolo_mode` (lines 654–666; `started` and
`duration` are wall-clock times and are not modelled). -/
structure YoloResults where
  tasks_attempted : Nat
  tasks_completed : Nat
  tasks_failed : Nat
  total_files_modified : Int
  errors : List ErrEntry
  completed_tasks : List String
  dry_run : Bool
  validation_results : List (String × ValidationResult)
  strict_validation : Bool
  skip_validation : Bool
deriving DecidableEq

/-- The per-candidate loop of `yolo_mode` (lines 725–765): check the
deadline, count the attempt, in a dry run only count a simulated success,
otherwise execute the task; a failure appends the task error and breaks
the loop. -/
def yoloLoop (env : YoloEnv) (dryRun : Bool) (maxFiles : Int) (strictV skipV : Bool) :
    List String → Nat → YoloResults → TaskStore → Nat → YoloResults × TaskStore
  | [], _, r, st, _ => (r, st)
  | name :: rest, i, r, st, ck =>
    if env.timeHit i then (r, st)
    else
      let r1 := { r with tasks_attempted := r.tasks_attempted + 1 }
      if dryRun then
        yoloLoop env dryRun maxFiles strictV skipV rest (i + 1)
          { r1 with tasks_completed := r1.tasks_completed + 1 } st ck
      else
        let e := execute_task_safely env i st name maxFiles strictV skipV ck
        if e.1.success then
          let r2 := { r1 with
            tasks_completed := r1.tasks_completed + 1,
            completed_tasks := r1.completed_tasks ++ [name],
            total_files_modified := r1.total_files_modified + e.1.files_modified,
            validation_results := r1.validation_results ++ e.1.validation_results }
          yoloLoop env dryRun maxFiles strictV skipV rest (i + 1) r2 e.2.1 e.2.2
        else
          ({ r1 with
             tasks_failed := r1.tasks_failed + 1,
             errors := r1.errors ++ [.taskErr name (e.1.error.getD "Unknown error")] },
           e.2.1)

/-- Candidate selection and the loop (lines 716–765), shared by both
branches of the pre-flight conditional. -/
def yoloRun (maxTasks : Int) (component_filter : Option String) (dryRun : Bool)
    (maxFiles : Int) (strictV skipV : Bool) (env : YoloEnv) (st : TaskStore)
    (r : YoloResults) : YoloResults × TaskStore :=
  let suitable := find_yolo_tasks st maxTasks component_filter
  if suitable.isEmpty then (r, st)
  else yoloLoop env dryRun maxFiles strictV skipV suitable 0 r st 0

/-- `TaskManager.yolo_mode` (lines 635–803): unless `skip_validation`, run
the pre-flight validation; on its failure record its errors and return
with nothing attempted; otherwise select candidates and run the loop. -/
def yolo_mode (maxTasks : Int) (component_filter : Option String) (dryRun : Bool)
    (maxFiles : Int) (strictV skipV : Bool) (env : YoloEnv) (st : TaskStore) :
    YoloResults × TaskStore :=
  let r0 : YoloResults := ⟨0, 0, 0, 0, [], [], dryRun, [], strictV, skipV⟩
  if ¬skipV then
    let preVal := runVal strictV env.preChecks
    let r1 := { r0 with validation_results := [("pre-task", preVal)] }
    if ¬preVal.success then
      ({ r1 with errors := preVal.errors.map .plain }, st)
    else yoloRun maxTasks component_filter dryRun maxFiles strictV skipV env st r1
  else yoloRun maxTasks component_filter dryRun maxFiles strictV skipV env st r0

/-- A concrete freshly created task file (template fields instantiated),
used to exercise the status-rewrite and progress-log behaviour. -/
def freshDemoTask : String :=
  task_content "T" "t-1" "core" "Gen" "medium" "2024-01-01 00:00:00" "f.md" "1"
    "desc" "2024-01-01"

/-- The content of `freshDemoTask` after the moves `todo → in-progress`
(at 2024-01-02) and the rollback `in-progress → todo` (at 2024-01-03). -/
def demoAfterRollback : String :=
  update_task_status
    (update_task_status freshDemoTask "in-progress" "2024-01-02 00:00:00")
    "todo" "2024-01-03 00:00:00"

/-- Whether attempt `i` of a session run succeeds: no unexpected
exception, the file budget not tripped, and (unless validation is
skipped) a passing post-task validation.  This is determined by the
environment alone — `execute_task_safely` never branches on the store. -/
def attemptOK (env : YoloEnv) (maxFiles : Int) (strictV skipV : Bool) (i : Nat) : Bool :=
  (env.excAt i).isNone && !(decide (estimated_files > maxFiles)) &&
    (skipV || (runVal strictV (env.postChecks i)).success)

/-- A concrete session environment: every external check passes, no
deadline ever fires, but an unexpected exception interrupts the second
attempted task (attempt index 1). -/
def demoEnv : YoloEnv :=
  ⟨⟨.ran 0 "" "", .ran 0 "" "", .ran 0 "" "", .ran 0 "" ""⟩,
    fun _ => ⟨.ran 0 "" "", .ran 0 "" "", .ran 0 "" "", .ran 0 "" ""⟩,
    fun i => if i = 1 then some "boom" else none,
    fun _ => false, fun _ => ⟨0, true, "", 0, 0⟩, fun _ => "T"⟩

/-- A concrete store with three suitable todo tasks. -/
def demoStore : TaskStore :=
  ⟨[("a.md", "unit test a"), ("b.md", "unit test b"), ("c.md", "unit test c")], [], []⟩

/-! ## Theorems -/

/-- What the cargo block does to the three aggregate fields. -/
theorem stageCargo_fields (strict : Bool) (c : CheckResult) (r : ValidationResult) :
    (stageCargo strict c r).errors =
      r.errors ++ (if c.success then [] else c.errors) ++
        (if c.warnings ≠ [] ∧ strict = true then
          c.warnings.map (fun w => "Warning (strict mode): " ++ w) else []) ∧
    (stageCargo strict c r).success =
      (r.success && c.success && !(strict && !c.warnings.isEmpty)) ∧
    (stageCargo strict c r).warnings = r.warnings ++ c.warnings := by
  unfold stageCargo
  split_ifs <;> simp_all [List.isEmpty_iff]

/-- What the clippy block does to the three aggregate fields. -/
theorem stageClippy_fields (strict : Bool) (c : CheckResult) (r : ValidationResult) :
    (stageClippy strict c r).errors =
      r.errors ++ (if c.success then [] else c.errors) ++
        (if c.warnings ≠ [] ∧ strict = true then
          c.warnings.map (fun w => "Clippy warning (strict mode): " ++ w) else []) ∧
    (stageClippy strict c r).success =
      (r.success && c.success && !(strict && !c.warnings.isEmpty)) ∧
    (stageClippy strict c r).warnings = r.warnings ++ c.warnings := by
  unfold stageClippy
  split_ifs <;> simp_all [List.isEmpty_iff]

/-- What the documentation block does to the three aggregate fields. -/
theorem stageDoc_fields (c : CheckResult) (r : ValidationResult) :
    (stageDoc c r).errors = r.errors ++ (if c.success then [] else c.errors) ∧
    (stageDoc c r).success = (r.success && c.success) ∧
    (stageDoc c r).warnings = r.warnings ++ c.warnings := by
  unfold stageDoc
  split_ifs <;> simp_all

/-- What the format block does to the three aggregate fields. -/
theorem stageFormat_fields (c : CheckResult) (r : ValidationResult) :
    (stageFormat c r).errors = r.errors ++ (if c.success then [] else c.errors) ∧
    (stageFormat c r).success = (r.success && c.success) ∧
    (stageFormat c r).warnings = r.warnings := by
  unfold stageFormat
  split_ifs <;> simp_all

/-- The `errors` list `run_all_validations` aggregates, segment by
segment in source order. -/
theorem runAll_errors (strict : Bool) (c l d f : CheckResult) :
    (run_all_validations strict c l d f).errors =
      (if c.success then [] else c.errors) ++
      (if c.warnings ≠ [] ∧ strict = true then
        c.warnings.map (fun w => "Warning (strict mode): " ++ w) else []) ++
      (if l.success then [] else l.errors) ++
      (if l.warnings ≠ [] ∧ strict = true then
        l.warnings.map (fun w => "Clippy warning (strict mode): " ++ w) else []) ++
      (if d.success then [] else d.errors) ++
      (if f.success then [] else f.errors) := by
  unfold run_all_validations
  rw [(stageFormat_fields f _).1, (stageDoc_fields d _).1,
    (stageClippy_fields strict l _).1, (stageCargo_fields strict c _).1]
  simp [List.append_assoc]

/-- The aggregate `success` flag of `run_all_validations`. -/
theorem runAll_success (strict : Bool) (c l d f : CheckResult) :
    (run_all_validations strict c l d f).success =
      (c.success && !(strict && !c.warnings.isEmpty) &&
       l.success && !(strict && !l.warnings.isEmpty) &&
       d.success && f.success) := by
  unfold run_all_validations
  rw [(stageFormat_fields f _).2.1, (stageDoc_fields d _).2.1,
    (stageClippy_fields strict l _).2.1, (stageCargo_fields strict c _).2.1]
  cases c.success <;> cases l.success <;> cases d.success <;> cases f.success <;> simp

/-- The aggregate `warnings` list of `run_all_validations`: the cargo,
clippy and doc warnings in order (format warnings are never collected). -/
theorem runAll_warnings (strict : Bool) (c l d f : CheckResult) :
    (run_all_validations strict c l d f).warnings =
      c.warnings ++ l.warnings ++ d.warnings := by
  unfold run_all_validations
  rw [(stageFormat_fields f _).2.2, (stageDoc_fields d _).2.2,
    (stageClippy_fields strict l _).2.2, (stageCargo_fields strict c _).2.2]
  simp

/-- When the aggregate `success` flag is true, no errors were collected. -/
theorem runAll_success_errors (strict : Bool) (c l d f : CheckResult)
    (h : (run_all_validations strict c l d f).success = true) :
    (run_all_validations strict c l d f).errors = [] := by
  rw [runAll_success] at h
  rw [runAll_errors]
  simp only [Bool.and_eq_true, Bool.not_eq_true', Bool.and_eq_false_iff,
    Bool.not_eq_false, List.isEmpty_iff] at h
  obtain ⟨⟨⟨⟨⟨hc, hcw⟩, hl⟩, hlw⟩, hd⟩, hf⟩ := h
  rcases hcw with h2 | h2 <;> rcases hlw with h3 | h3 <;> simp_all [List.isEmpty_iff]

/-- `run_doc_validation` can never report warnings. -/
theorem run_doc_validation_warnings (o : ProcOutcome) :
    (run_doc_validation o).warnings = [] := by
  cases o <;> simp [run_doc_validation] <;> split_ifs <;> rfl

/-- `run_format_check` can never report warnings. -/
theorem run_format_check_warnings (o : ProcOutcome) :
    (run_format_check o).warnings = [] := by
  cases o <;> simp [run_format_check] <;> split_ifs <;> rfl

/-- Claim C2: in every result of `run_all_validations` (over the outcomes
of the four external checks), `success` is false whenever `errors` is
non-empty, and, when strict mode was requested, whenever `warnings` is
non-empty; moreover in strict mode, if any check produced a non-empty
warning list then `success` is false and those warnings (they can only
come from the cargo or clippy checks) are reclassified as errors. -/
theorem validation_gate_strict_invariant (strict : Bool) (co : ChecksOutcome) :
    ((runVal strict co).errors ≠ [] → (runVal strict co).success = false) ∧
    (strict = true → (runVal strict co).warnings ≠ [] →
      (runVal strict co).success = false) ∧
    (strict = true →
      ((run_rust_check co.cargo).warnings ≠ [] ∨ (run_clippy_check co.clippy).warnings ≠ [] ∨
        (run_doc_validation co.doc).warnings ≠ [] ∨ (run_format_check co.fmtc).warnings ≠ []) →
      (runVal strict co).success = false ∧
      (∀ w ∈ (run_rust_check co.cargo).warnings,
        "Warning (strict mode): " ++ w ∈ (runVal strict co).errors) ∧
      (∀ w ∈ (run_clippy_check co.clippy).warnings,
        "Clippy warning (strict mode): " ++ w ∈ (runVal strict co).errors) ∧
      (run_doc_validation co.doc).warnings = [] ∧
      (run_format_check co.fmtc).warnings = []) := by
  simp only [runVal]
  have hdoc := run_doc_validation_warnings co.doc
  have hfmt := run_format_check_warnings co.fmtc
  refine ⟨?_, ?_, ?_⟩
  · intro h
    rcases Bool.eq_false_or_eq_true ((run_all_validations strict (run_rust_check co.cargo)
      (run_clippy_check co.clippy) (run_doc_validation co.doc)
      (run_format_check co.fmtc)).success) with hs | hs
    · exact absurd (runAll_success_errors _ _ _ _ _ hs) h
    · exact hs
  · rintro rfl hw
    rw [runAll_warnings, hdoc, List.append_nil] at hw
    have hcl : (run_rust_check co.cargo).warnings ≠ [] ∨
        (run_clippy_check co.clippy).warnings ≠ [] := by
      rcases hx : (run_rust_check co.cargo).warnings with _ | ⟨a, t⟩
      · refine Or.inr fun hy => hw ?_
        rw [hx, hy]
        rfl
      · exact Or.inl (by simp [hx])
    rcases hcl with h | h
    · rcases hx : (run_rust_check co.cargo).warnings with _ | ⟨a, t⟩
      · exact absurd hx h
      · rw [runAll_success, hx]
        simp
    · rcases hx : (run_clippy_check co.clippy).warnings with _ | ⟨a, t⟩
      · exact absurd hx h
      · rw [runAll_success, hx]
        simp
  · rintro rfl hone
    have hcl : (run_rust_check co.cargo).warnings ≠ [] ∨
        (run_clippy_check co.clippy).warnings ≠ [] := by
      rcases hone with h | h | h | h
      exacts [Or.inl h, Or.inr h, absurd hdoc h, absurd hfmt h]
    refine ⟨?_, ?_, ?_, hdoc, hfmt⟩
    · rcases hcl with h | h
      · rcases hx : (run_rust_check co.cargo).warnings with _ | ⟨a, t⟩
        · exact absurd hx h
        · rw [runAll_success, hx]
          simp
      · rcases hx : (run_clippy_check co.clippy).warnings with _ | ⟨a, t⟩
        · exact absurd hx h
        · rw [runAll_success, hx]
          simp
    · intro w hwm
      rw [runAll_errors]
      simp only [List.mem_append]
      refine Or.inl (Or.inl (Or.inl (Or.inl (Or.inr ?_))))
      rw [if_pos ⟨List.ne_nil_of_mem hwm, trivial⟩]
      exact List.mem_map_of_mem _ hwm
    · intro w hwm
      rw [runAll_errors]
      simp only [List.mem_append]
      refine Or.inl (Or.inl (Or.inr ?_))
      rw [if_pos ⟨List.ne_nil_of_mem hwm, trivial⟩]
      exact List.mem_map_of_mem _ hwm

/-- Witness for C2: a concrete strict run whose cargo check errors and
whose clippy check warns; the aggregate fails and the clippy warning is
reclassified as an error. -/
theorem validation_gate_strict_invariant_witness :
    (runVal true ⟨.ran 1 "" "error: bad", .ran 1 "" "warning: foo", .ran 0 "" "",
      .ran 0 "" ""⟩).success = false ∧
    "Clippy warning (strict mode): warning: foo" ∈
      (runVal true ⟨.ran 1 "" "error: bad", .ran 1 "" "warning: foo", .ran 0 "" "",
        .ran 0 "" ""⟩).errors := by
  have h := validation_gate_strict_invariant true
    ⟨.ran 1 "" "error: bad", .ran 1 "" "warning: foo", .ran 0 "" "", .ran 0 "" ""⟩
  have hone := h.2.2 rfl (Or.inr (Or.inl (by decide)))
  exact ⟨hone.1, hone.2.2.1 "warning: foo" (by decide)⟩

/-- `List.isPrefixOf` answers exactly the existence of a completion. -/
theorem isPrefixOf_exists : ∀ (p l : List Char), p.isPrefixOf l = true ↔ ∃ t, l = p ++ t := by
  intro p
  induction p with
  | nil =>
    intro l
    simp [List.isPrefixOf]
  | cons a as ih =>
    intro l
    cases l with
    | nil => simp [List.isPrefixOf]
    | cons b bs =>
      simp only [List.isPrefixOf, Bool.and_eq_true, beq_iff_eq, ih bs, List.cons_append,
        List.cons.injEq]
      constructor
      · rintro ⟨rfl, t, rfl⟩
        exact ⟨t, rfl, rfl⟩
      · rintro ⟨t, rfl, rfl⟩
        exact ⟨rfl, t, rfl⟩

/-- `listContains` answers exactly the existence of a decomposition around
the pattern: the Python substring relation. -/
theorem listContains_exists (pat : List Char) :
    ∀ hay : List Char, listContains hay pat = true ↔ ∃ pre post, hay = pre ++ pat ++ post := by
  intro hay
  induction hay with
  | nil =>
    simp only [listContains, List.isEmpty_iff]
    constructor
    · rintro rfl
      exact ⟨[], [], rfl⟩
    · rintro ⟨pre, post, he⟩
      rcases List.append_eq_nil.mp (List.append_eq_nil.mp he.symm).1 with ⟨-, h2⟩
      exact h2
  | cons c t ih =>
    simp only [listContains, Bool.or_eq_true, isPrefixOf_exists, ih]
    constructor
    · rintro (⟨t', he⟩ | ⟨pre, post, rfl⟩)
      · exact ⟨[], t', by simpa using he⟩
      · exact ⟨c :: pre, post, rfl⟩
    · rintro ⟨pre, post, he⟩
      cases pre with
      | nil => exact Or.inl ⟨post, by simpa using he⟩
      | cons x xs =>
        rw [List.cons_append, List.cons_append, List.cons.injEq] at he
        exact Or.inr ⟨xs, post, he.2⟩

/-- The keyword scan answers exactly "some keyword of the list is a
substring". -/
theorem scanKeywords_exists (lower : List Char) :
    ∀ ks : List String, scanKeywords lower ks = true ↔
      ∃ k ∈ ks, listContains lower k.toList = true := by
  intro ks
  induction ks with
  | nil => simp [scanKeywords]
  | cons k t ih =>
    unfold scanKeywords
    split_ifs with h
    · simp only [true_iff]
      exact ⟨k, List.mem_cons_self k t, h⟩
    · rw [ih]
      constructor
      · rintro ⟨k', hk', hc⟩
        exact ⟨k', List.mem_cons_of_mem _ hk', hc⟩
      · rintro ⟨k', hk', hc⟩
        rcases List.mem_cons.mp hk' with rfl | hk'
        · exact absurd hc h
        · exact ⟨k', hk', hc⟩

/-- Claim C7: on any task body, a risky keyword occurring (case-insensitively,
as a substring) forces `_is_task_yolo_suitable` to return false, whatever
suitable keywords are also present; with no risky keyword present it
returns true exactly when some suitable keyword is present (so a text
matching neither list yields false). -/
theorem yolo_suitability_risky_precedence (text : String) :
    ((∃ k ∈ risky_indicators, ∃ pre post, (pyLower text).toList = pre ++ k.toList ++ post) →
      _is_task_yolo_suitable text = false) ∧
    ((¬ ∃ k ∈ risky_indicators, ∃ pre post, (pyLower text).toList = pre ++ k.toList ++ post) →
      (_is_task_yolo_suitable text = true ↔
        ∃ k ∈ suitable_indicators, ∃ pre post, (pyLower text).toList = pre ++ k.toList ++ post)) := by
  have heq : _is_task_yolo_suitable text =
      (!scanKeywords (pyLower text).toList risky_indicators &&
        scanKeywords (pyLower text).toList suitable_indicators) := by
    unfold _is_task_yolo_suitable
    dsimp only
    split_ifs with h <;> simp only [String.toList] at h <;> simp [h]
  constructor
  · rintro ⟨k, hk, pre, post, he⟩
    have hs : scanKeywords (pyLower text).toList risky_indicators = true :=
      (scanKeywords_exists _ _).mpr ⟨k, hk, (listContains_exists _ _).mpr ⟨pre, post, he⟩⟩
    rw [heq, hs]
    rfl
  · intro hno
    have hs : scanKeywords (pyLower text).toList risky_indicators = false := by
      rcases Bool.eq_false_or_eq_true (scanKeywords (pyLower text).toList risky_indicators)
        with h | h
      · obtain ⟨k, hk, hc⟩ := (scanKeywords_exists _ _).mp h
        obtain ⟨pre, post, he⟩ := (listContains_exists _ _).mp hc
        exact absurd ⟨k, hk, pre, post, he⟩ hno
      · exact h
    rw [heq, hs, Bool.not_false, Bool.true_and, scanKeywords_exists]
    constructor
    · rintro ⟨k, hk, hc⟩
      exact ⟨k, hk, (listContains_exists _ _).mp hc⟩
    · rintro ⟨k, hk, pre, post, he⟩
      exact ⟨k, hk, (listContains_exists _ _).mpr ⟨pre, post, he⟩⟩

/-- Witness for C7: a text containing both `SECURITY` (risky, upper case)
and `unit test` (suitable) is rejected. -/
theorem yolo_suitability_risky_precedence_witness :
    _is_task_yolo_suitable "Improve SECURITY and unit test docs" = false :=
  (yolo_suitability_risky_precedence "Improve SECURITY and unit test docs").1
    ⟨"security", by decide, "improve ".toList, " and unit test docs".toList, by decide⟩

/-! ### Store lemmas -/

/-- Reading a directory after replacing one. -/
theorem get_setDir (st : TaskStore) (d d' : Dir) (l : List (String × String)) :
    (st.setDir d l).get d' = if d' = d then l else st.get d' := by
  cases d <;> cases d' <;> simp [TaskStore.get, TaskStore.setDir]

/-- Erasing one key leaves the others' lookups unchanged. -/
theorem lookupKey_eraseKey (n n' : String) (h : n' ≠ n) :
    ∀ l, lookupKey n' (eraseKey n l) = lookupKey n' l := by
  intro l
  induction l with
  | nil => rfl
  | cons p t ih =>
    obtain ⟨k, v⟩ := p
    simp only [eraseKey, lookupKey]
    split_ifs with h1 h2 <;> simp_all [lookupKey]

/-- Erasing a key removes it for good. -/
theorem lookupKey_eraseKey_self (n : String) :
    ∀ l, lookupKey n (eraseKey n l) = none := by
  intro l
  induction l with
  | nil => rfl
  | cons p t ih =>
    obtain ⟨k, v⟩ := p
    simp only [eraseKey]
    split_ifs with h1 <;> simp_all [lookupKey]

/-- `move_task` touches only the file it is given: every other name's
lookup, in every directory, is unchanged. -/
theorem move_task_preserves (st : TaskStore) (d : Dir) (name s : String)
    (auto : Bool) (g : GitEnv) (ts : String) (d' : Dir) (n : String) (h : n ≠ name) :
    lookupFile (move_task st d name s auto g ts).2 d' n = lookupFile st d' n := by
  unfold move_task
  by_cases hv : s ∈ statusDirs
  · rw [if_pos hv]
    cases hl : lookupFile st d name with
    | none => rfl
    | some c =>
      simp only [lookupFile, insertAt, removeAt, get_setDir, lookupKey]
      split_ifs with h1 h2 <;>
        simp_all [lookupKey_eraseKey _ _ h, lookupKey, Ne.symm h, lookupFile]
  · rw [if_neg hv]

/-- A successful `move_task` relocates the record: the target directory
holds the rewritten content and (if different) the source directory no
longer holds the name. -/
theorem move_task_success (st : TaskStore) (d : Dir) (name c s : String)
    (auto : Bool) (g : GitEnv) (ts : String)
    (hc : lookupFile st d name = some c) (hs : s ∈ statusDirs) :
    (move_task st d name s auto g ts).1 = true ∧
    lookupFile (move_task st d name s auto g ts).2 (dirOfStatus s) name =
      some (update_task_status c s ts) ∧
    (d ≠ dirOfStatus s → lookupFile (move_task st d name s auto g ts).2 d name = none) := by
  unfold move_task
  rw [if_pos hs, hc]
  refine ⟨rfl, ?_, ?_⟩
  · simp [lookupFile, insertAt, removeAt, get_setDir, lookupKey]
  · intro hd
    simp only [lookupFile, insertAt, removeAt, get_setDir, lookupKey]
    rw [if_neg hd]
    simp [lookupKey_eraseKey_self]

/-- Claim C1 (amended): `move_task` enforces no transition legality at
all.  For every source partition `d`, every existing record and every
valid target status `s` — including `completed → todo`,
`completed → in-progress` and `todo → completed` — the move returns
`True`, rewrites the content and relocates the record into the target
partition; no `InvalidTransition` failure exists in the code (the only
failures are an invalid status string or a missing file). -/
theorem move_task_permits_every_transition (st : TaskStore) (d : Dir)
    (name c s : String) (auto : Bool) (g : GitEnv) (ts : String)
    (hc : lookupFile st d name = some c) (hs : s ∈ statusDirs) :
    (move_task st d name s auto g ts).1 = true ∧
    lookupFile (move_task st d name s auto g ts).2 (dirOfStatus s) name =
      some (update_task_status c s ts) ∧
    (d ≠ dirOfStatus s → lookupFile (move_task st d name s auto g ts).2 d name = none) :=
  move_task_success st d name c s auto g ts hc hs

/-- Witness for C1 (amended): a concrete `completed → todo` move succeeds
and relocates the record. -/
theorem move_task_permits_every_transition_witness :
    (move_task ⟨[], [], [("x.md", "c")]⟩ .completed "x.md" "todo" false
      ⟨0, true, "", 0, 0⟩ "T").1 = true ∧
    lookupFile (move_task ⟨[], [], [("x.md", "c")]⟩ .completed "x.md" "todo" false
      ⟨0, true, "", 0, 0⟩ "T").2 (dirOfStatus "todo") "x.md" =
      some (update_task_status "c" "todo" "T") ∧
    lookupFile (move_task ⟨[], [], [("x.md", "c")]⟩ .completed "x.md" "todo" false
      ⟨0, true, "", 0, 0⟩ "T").2 .completed "x.md" = none := by
  have h := move_task_permits_every_transition ⟨[], [], [("x.md", "c")]⟩ .completed
    "x.md" "c" "todo" false ⟨0, true, "", 0, 0⟩ "T" rfl (by decide)
  exact ⟨h.1, h.2.1, h.2.2 (by decide)⟩

/-- Counterexample for C1: the claim says `COMPLETED → TODO` fails with
`InvalidTransition` and leaves the record's partition unchanged; in the
code this move returns `True` and relocates the record into `todo`. -/
theorem completed_to_todo_succeeds :
    (move_task ⟨[], [], [("y.md", "c")]⟩ .completed "y.md" "todo" false
      ⟨0, true, "", 0, 0⟩ "T").1 = true ∧
    lookupFile (move_task ⟨[], [], [("y.md", "c")]⟩ .completed "y.md" "todo" false
      ⟨0, true, "", 0, 0⟩ "T").2 .todo "y.md" = some "c" ∧
    lookupFile (move_task ⟨[], [], [("y.md", "c")]⟩ .completed "y.md" "todo" false
      ⟨0, true, "", 0, 0⟩ "T").2 .completed "y.md" = none := by
  decide

/-- Claim C10: an invalid status string, or a missing target file, makes
`move_task` return `False` with the store untouched: no content rewrite,
no rename, no progress-log entry. -/
theorem move_task_invalid_rejected (st : TaskStore) (d : Dir) (name s : String)
    (auto : Bool) (g : GitEnv) (ts : String)
    (h : s ∉ statusDirs ∨ lookupFile st d name = none) :
    move_task st d name s auto g ts = (false, st) := by
  unfold move_task
  rcases h with h | h
  · rw [if_neg h]
  · by_cases hv : s ∈ statusDirs
    · rw [if_pos hv, h]
    · rw [if_neg hv]

/-- Witness for C10: the status string `done` is rejected and the store
is returned unchanged. -/
theorem move_task_invalid_rejected_witness :
    move_task ⟨[("a.md", "x")], [], []⟩ .todo "a.md" "done" false
      ⟨0, true, "", 0, 0⟩ "T" = (false, ⟨[("a.md", "x")], [], []⟩) :=
  move_task_invalid_rejected ⟨[("a.md", "x")], [], []⟩ .todo "a.md" "done" false
    ⟨0, true, "", 0, 0⟩ "T" (Or.inl (by decide))

/-- Claim C4 (amended): on the `complete` move the publish side effect is
fully decoupled from the transition's outcome.  A push failure after a
successful commit leaves `auto_commit_and_push` returning `True` (warning
only), as the claim says; but a commit failure makes `auto_commit_and_push`
return `False` while `move_task` discards that result: the transition still
returns `True`, the record is moved to `completed` (it does not remain
`IN_PROGRESS`), and no failure is surfaced to the caller. -/
theorem complete_publish_decoupled (st : TaskStore) (name c ts : String) (g : GitEnv)
    (hc : lookupFile st .inProgress name = some c) :
    (move_task st .inProgress name "completed" true g ts).1 = true ∧
    lookupFile (move_task st .inProgress name "completed" true g ts).2 .completed name =
      some (update_task_status c "completed" ts) ∧
    lookupFile (move_task st .inProgress name "completed" true g ts).2 .inProgress name =
      none ∧
    (∀ g' : GitEnv, move_task st .inProgress name "completed" true g' ts =
      move_task st .inProgress name "completed" true g ts) ∧
    (pyStrip g.stagedOutput ≠ "" → g.statusRc = 0 → g.addOk = true → g.commitRc = 0 →
      auto_commit_and_push g = true) ∧
    (pyStrip g.stagedOutput ≠ "" → g.statusRc = 0 → g.addOk = true → g.commitRc ≠ 0 →
      auto_commit_and_push g = false) := by
  obtain ⟨h1, h2, h3⟩ := move_task_success st .inProgress name c "completed" true g ts hc
    (by decide)
  refine ⟨h1, h2, h3 (by decide), fun g' => rfl, ?_, ?_⟩
  · intro hne h0 hadd hcommit
    simp [auto_commit_and_push, h0, hadd, hne, hcommit]
  · intro hne h0 hadd hcommit
    simp [auto_commit_and_push, h0, hadd, hne, hcommit]

/-- Witness for C4 (amended): with a failing push after a successful
commit, the concrete `complete` move succeeds and the publish helper still
reports success. -/
theorem complete_publish_decoupled_witness :
    (move_task ⟨[], [("w.md", "c")], []⟩ .inProgress "w.md" "completed" true
      ⟨0, true, "f\n", 0, 1⟩ "T").1 = true ∧
    auto_commit_and_push ⟨0, true, "f\n", 0, 1⟩ = true := by
  have h := complete_publish_decoupled ⟨[], [("w.md", "c")], []⟩ "w.md" "c" "T"
    ⟨0, true, "f\n", 0, 1⟩ rfl
  exact ⟨h.1, h.2.2.2.2.1 (by decide) rfl rfl rfl⟩

/-- Counterexample for C4: with a failing commit, `auto_commit_and_push`
reports failure, yet the `complete` move still returns `True` and the
record ends in `completed`, not `in-progress`. -/
theorem commit_failure_still_completes :
    auto_commit_and_push ⟨0, true, "tasks/z.md\n", 1, 0⟩ = false ∧
    (move_task ⟨[], [("z.md", "c")], []⟩ .inProgress "z.md" "completed" true
      ⟨0, true, "tasks/z.md\n", 1, 0⟩ "T").1 = true ∧
    lookupFile (move_task ⟨[], [("z.md", "c")], []⟩ .inProgress "z.md" "completed" true
      ⟨0, true, "tasks/z.md\n", 1, 0⟩ "T").2 .completed "z.md" = some "c" ∧
    lookupFile (move_task ⟨[], [("z.md", "c")], []⟩ .inProgress "z.md" "completed" true
      ⟨0, true, "tasks/z.md\n", 1, 0⟩ "T").2 .inProgress "z.md" = none := by
  decide

set_option maxRecDepth 40000 in
/-- Claim C3 (code bug): on a freshly created task file, after the
transition sequence `todo → in-progress → todo` (a rollback), the `Status`
line reads `**Status**: TODO PROGRESS` — not `**Status**: TODO` — because
the pattern `\*\*Status\*\*: \w+` matches only the first word `IN` of the
previously written value `IN PROGRESS`, leaving ` PROGRESS` behind. -/
theorem status_field_corrupted_after_rollback :
    pyIn "**Status**: TODO PROGRESS"
      demoAfterRollback = true ∧
    pyIn "**Status**: TODO  "
      demoAfterRollback = false := by
  decide

set_option maxRecDepth 40000 in
/-- Counterexample for C8: after two transitions of a freshly created task
file, the second progress-log entry stands immediately *before* the first —
the new entry is inserted right after the placeholder comment, not appended
at the end of the existing entries, so the claimed append-at-end order never
occurs. -/
theorem progress_entries_not_appended_at_end :
    pyIn ("- 2024-01-03 00:00:00: Status changed to todo\n- 2024-01-02 00:00:00: Status changed to in-progress")
      demoAfterRollback = true ∧
    pyIn ("- 2024-01-02 00:00:00: Status changed to in-progress\n- 2024-01-03 00:00:00: Status changed to todo")
      demoAfterRollback = false := by
  decide

/-- Prepending text can only add occurrences of a pattern, never remove
them. -/
theorem countSub_le_append (pat : List Char) :
    ∀ X Y : List Char, countSub Y pat ≤ countSub (X ++ Y) pat := by
  intro X Y
  induction X with
  | nil => simp
  | cons c X' ih =>
    show countSub Y pat ≤ countSub (c :: (X' ++ Y)) pat
    simp only [countSub, List.append_eq]
    omega

/-- A list starting with the (non-empty) pattern has at least one
occurrence of it. -/
theorem countSub_self_append (pat : List Char) (hne : pat ≠ []) (B : List Char) :
    1 ≤ countSub (pat ++ B) pat := by
  cases pat with
  | nil => exact absurd rfl hne
  | cons p0 pt =>
    have hp : (p0 :: pt).isPrefixOf (p0 :: (pt ++ B)) = true :=
      (isPrefixOf_exists _ _).mpr ⟨B, rfl⟩
    show 1 ≤ countSub (p0 :: (pt ++ B)) (p0 :: pt)
    simp only [countSub, List.append_eq, hp, if_true]
    omega

/-- The replace scan leaves a list with no occurrence of the pattern
unchanged, whatever the fuel. -/
theorem replaceAllGo_nomatch (pat repl : List Char) (hne : pat ≠ []) :
    ∀ (s : List Char) (fuel : Nat), countSub s pat = 0 →
      replaceAllGo pat repl fuel s = s := by
  intro s
  induction s with
  | nil =>
    intro fuel h
    cases fuel <;> rfl
  | cons c t ih =>
    intro fuel h
    cases fuel with
    | zero => rfl
    | succ f =>
      simp only [countSub] at h
      have h1 : pat.isPrefixOf (c :: t) = false := by
        rcases Bool.eq_false_or_eq_true (pat.isPrefixOf (c :: t)) with hb | hb
        · rw [hb] at h
          simp at h
        · exact hb
      rw [h1] at h
      simp only [Bool.false_eq_true, if_false, Nat.zero_add] at h
      unfold replaceAllGo
      rw [if_neg (by simp [h1]), ih f h]

/-- `str.replace` at a pattern occurring exactly once: the text before and
after the occurrence is kept verbatim and the occurrence alone becomes the
replacement. -/
theorem replaceAllGo_single (pat repl : List Char) (hne : pat ≠ []) :
    ∀ (A B : List Char) (fuel : Nat),
      (A ++ pat ++ B).length ≤ fuel →
      countSub (A ++ pat ++ B) pat = 1 →
      replaceAllGo pat repl fuel (A ++ pat ++ B) = A ++ repl ++ B := by
  intro A
  induction A with
  | nil =>
    intro B fuel hfuel hcount
    simp only [List.nil_append] at hfuel hcount ⊢
    cases pat with
    | nil => exact absurd rfl hne
    | cons p0 pt =>
      cases fuel with
      | zero => simp at hfuel
      | succ f =>
        have hp : (p0 :: pt).isPrefixOf (p0 :: (pt ++ B)) = true :=
          (isPrefixOf_exists _ _).mpr ⟨B, rfl⟩
        have hcount' : countSub (p0 :: (pt ++ B)) (p0 :: pt) = 1 := hcount
        simp only [countSub, List.append_eq, hp, if_true] at hcount'
        have hpt : countSub (pt ++ B) (p0 :: pt) = 0 := by omega
        have hB : countSub B (p0 :: pt) = 0 :=
          Nat.le_zero.mp ((countSub_le_append (p0 :: pt) pt B).trans (Nat.le_of_eq hpt))
        show replaceAllGo (p0 :: pt) repl (f + 1) (p0 :: (pt ++ B)) = repl ++ B
        unfold replaceAllGo
        rw [if_pos ⟨hne, hp⟩]
        have hd : (p0 :: (pt ++ B)).drop (p0 :: pt).length = B := by
          simpa using List.drop_left (p0 :: pt) B
        rw [hd, replaceAllGo_nomatch (p0 :: pt) repl hne B f hB]
  | cons a A' ih =>
    intro B fuel hfuel hcount
    cases fuel with
    | zero => simp at hfuel
    | succ f =>
      have hge : 1 ≤ countSub (A' ++ pat ++ B) pat := by
        have h1 := countSub_self_append pat hne B
        have h2 := countSub_le_append pat A' (pat ++ B)
        have h3 : A' ++ (pat ++ B) = A' ++ pat ++ B := (List.append_assoc A' pat B).symm
        rw [h3] at h2
        omega
      have hcount' : countSub (a :: (A' ++ pat ++ B)) pat = 1 := hcount
      simp only [countSub, List.append_eq] at hcount'
      have hind : pat.isPrefixOf (a :: (A' ++ pat ++ B)) = false := by
        rcases Bool.eq_false_or_eq_true (pat.isPrefixOf (a :: (A' ++ pat ++ B)))
          with hb | hb
        · exfalso
          rw [hb] at hcount'
          simp only [if_true] at hcount'
          omega
        · exact hb
      rw [hind] at hcount'
      simp only [Bool.false_eq_true, if_false, Nat.zero_add] at hcount'
      have hfuel' : (A' ++ pat ++ B).length ≤ f := by
        have : (a :: (A' ++ pat ++ B)).length ≤ f + 1 := hfuel
        simp only [List.length_cons] at this
        omega
      show replaceAllGo pat repl (f + 1) (a :: (A' ++ pat ++ B)) = a :: (A' ++ repl ++ B)
      unfold replaceAllGo
      rw [if_neg fun hc => absurd hc.2 (by rw [hind]; exact Bool.false_ne_true), ih B f hfuel' hcount']

/-- `str.replace` on strings, at a pattern occurring exactly once. -/
theorem pyReplace_single (s pat repl : String) (A B : List Char)
    (hne : pat.toList ≠ [])
    (hs : s.toList = A ++ pat.toList ++ B)
    (hcount : countSub (A ++ pat.toList ++ B) pat.toList = 1) :
    (pyReplace s pat repl).toList = A ++ repl.toList ++ B := by
  unfold pyReplace replaceAllL
  show replaceAllGo pat.toList repl.toList s.toList.length s.toList = _
  rw [hs]
  exact replaceAllGo_single pat.toList repl.toList hne A B _ le_rfl hcount

/-- Claim C8 (amended): for every file content, every target status and
every timestamp, provided the (status-rewritten) content contains the
progress-log placeholder comment exactly once and has a `## Progress Log`
section — true of every task file this system creates — the update inserts
exactly one entry `- <timestamp>: Status changed to <to_status>`
immediately after the placeholder, i.e. at the *front* of the entry list
(newest first), and reproduces everything before and after the placeholder
verbatim: no previously present entry is removed or reordered, but the new
entry is not appended at the end. -/
theorem progress_entries_inserted_after_marker (content new_status ts : String)
    (A B : List Char)
    (hsplit : (subStatus (pyReplace (pyUpper new_status) "-" " ") content).toList =
      A ++ progressMarker.toList ++ B)
    (honce : countSub (A ++ progressMarker.toList ++ B) progressMarker.toList = 1)
    (hlog : pyIn "## Progress Log"
      (subStatus (pyReplace (pyUpper new_status) "-" " ") content) = true) :
    (update_task_status content new_status ts).toList =
      A ++ progressMarker.toList ++ "\n".toList ++
        ("- " ++ ts ++ ": Status changed to " ++ new_status).toList ++ B := by
  unfold update_task_status
  dsimp only
  rw [if_pos hlog]
  rw [pyReplace_single _ progressMarker _ A B (by decide) hsplit honce]
  simp only [String.toList, String.data_append, List.append_assoc]

/-- Witness for C8 (amended): a small log with one existing entry gains
exactly the new entry right after the placeholder, with the existing entry
kept verbatim after it. -/
theorem progress_entries_inserted_after_marker_witness :
    (update_task_status ("## Progress Log\n" ++ progressMarker ++ "\n- old entry")
      "todo" "T2").toList =
      "## Progress Log\n".toList ++ progressMarker.toList ++ "\n".toList ++
        ("- " ++ "T2" ++ ": Status changed to " ++ "todo").toList ++
        "\n- old entry".toList := by
  exact progress_entries_inserted_after_marker
    ("## Progress Log\n" ++ progressMarker ++ "\n- old entry") "todo" "T2"
    "## Progress Log\n".toList "\n- old entry".toList (by decide) (by decide) (by decide)

/-- Claim C5: with `skip_validation` false and a failing pre-flight
validation, `yolo_mode` returns immediately: zero tasks attempted, the
error list equal to the gate's errors, the store unchanged — and the whole
result independent of the store, since no candidate selection (no scan of
the todo collection) happens. -/
theorem yolo_preflight_blocks (maxTasks : Int) (cf : Option String) (dryRun : Bool)
    (maxFiles : Int) (strictV : Bool) (env : YoloEnv) (st : TaskStore)
    (hfail : (runVal strictV env.preChecks).success = false) :
    (yolo_mode maxTasks cf dryRun maxFiles strictV false env st).1.tasks_attempted = 0 ∧
    (yolo_mode maxTasks cf dryRun maxFiles strictV false env st).1.errors =
      (runVal strictV env.preChecks).errors.map ErrEntry.plain ∧
    (yolo_mode maxTasks cf dryRun maxFiles strictV false env st).2 = st ∧
    (∀ st' : TaskStore,
      (yolo_mode maxTasks cf dryRun maxFiles strictV false env st').1 =
        (yolo_mode maxTasks cf dryRun maxFiles strictV false env st).1) := by
  refine ⟨?_, ?_, ?_, fun st' => ?_⟩ <;> simp [yolo_mode, hfail]

/-- Witness for C5: a concrete failing pre-flight run (the cargo binary is
missing) attempts nothing, reports exactly the gate's error, and leaves a
one-task store unchanged. -/
theorem yolo_preflight_blocks_witness :
    (yolo_mode 1 none false 10 false false
      ⟨⟨.exc "no cargo", .ran 0 "" "", .ran 0 "" "", .ran 0 "" ""⟩,
        fun _ => ⟨.ran 0 "" "", .ran 0 "" "", .ran 0 "" "", .ran 0 "" ""⟩,
        fun _ => none, fun _ => false, fun _ => ⟨0, true, "", 0, 0⟩, fun _ => "T"⟩
      ⟨[("a.md", "unit test a")], [], []⟩).1.tasks_attempted = 0 ∧
    (yolo_mode 1 none false 10 false false
      ⟨⟨.exc "no cargo", .ran 0 "" "", .ran 0 "" "", .ran 0 "" ""⟩,
        fun _ => ⟨.ran 0 "" "", .ran 0 "" "", .ran 0 "" "", .ran 0 "" ""⟩,
        fun _ => none, fun _ => false, fun _ => ⟨0, true, "", 0, 0⟩, fun _ => "T"⟩
      ⟨[("a.md", "unit test a")], [], []⟩).1.errors =
      [ErrEntry.plain "Cargo check failed: no cargo"] ∧
    (yolo_mode 1 none false 10 false false
      ⟨⟨.exc "no cargo", .ran 0 "" "", .ran 0 "" "", .ran 0 "" ""⟩,
        fun _ => ⟨.ran 0 "" "", .ran 0 "" "", .ran 0 "" "", .ran 0 "" ""⟩,
        fun _ => none, fun _ => false, fun _ => ⟨0, true, "", 0, 0⟩, fun _ => "T"⟩
      ⟨[("a.md", "unit test a")], [], []⟩).2 = ⟨[("a.md", "unit test a")], [], []⟩ := by
  have h := yolo_preflight_blocks 1 none false 10 false
    ⟨⟨.exc "no cargo", .ran 0 "" "", .ran 0 "" "", .ran 0 "" ""⟩,
      fun _ => ⟨.ran 0 "" "", .ran 0 "" "", .ran 0 "" "", .ran 0 "" ""⟩,
      fun _ => none, fun _ => false, fun _ => ⟨0, true, "", 0, 0⟩, fun _ => "T"⟩
    ⟨[("a.md", "unit test a")], [], []⟩ (by decide)
  exact ⟨h.1, h.2.1.trans (by decide), h.2.2.1⟩

/-- Claim C9: the per-task file-modification estimate is the constant `1`
(line 900), so the budget branch of `_execute_task_safely` trips exactly
when `max_files < 1`: then the task fails with the budget error before any
post-task validation; with `max_files ≥ 1` the branch is unreachable — the
attempt either succeeds or carries a post-task validation stage. -/
theorem budget_branch_iff (env : YoloEnv) (i : Nat) (st : TaskStore) (name : String)
    (maxFiles : Int) (strictV skipV : Bool) (ck : Nat)
    (hexc : env.excAt i = none) :
    estimated_files = 1 ∧
    (maxFiles < 1 →
      (execute_task_safely env i st name maxFiles strictV skipV ck).1.success = false ∧
      (execute_task_safely env i st name maxFiles strictV skipV ck).1.validation_results = [] ∧
      (execute_task_safely env i st name maxFiles strictV skipV ck).1.error =
        some ("Task would modify " ++ toString estimated_files ++ " files (limit: " ++
          toString maxFiles ++ ")")) ∧
    (1 ≤ maxFiles →
      (execute_task_safely env i st name maxFiles strictV skipV ck).1.success = true ∨
      (execute_task_safely env i st name maxFiles strictV skipV ck).1.validation_results ≠ []) := by
  unfold execute_task_safely
  rw [hexc]
  dsimp only
  refine ⟨rfl, ?_, ?_⟩
  · intro hm
    rw [if_pos (show estimated_files > maxFiles from hm)]
    exact ⟨rfl, rfl, rfl⟩
  · intro hm
    rw [if_neg (show ¬estimated_files > maxFiles from Int.not_lt.mpr hm)]
    split_ifs <;> simp

/-- Witness for C9: with `max_files = 0` the concrete attempt trips the
budget branch and reports the budget error. -/
theorem budget_branch_iff_witness :
    (execute_task_safely
      ⟨⟨.ran 0 "" "", .ran 0 "" "", .ran 0 "" "", .ran 0 "" ""⟩,
        fun _ => ⟨.ran 0 "" "", .ran 0 "" "", .ran 0 "" "", .ran 0 "" ""⟩,
        fun _ => none, fun _ => false, fun _ => ⟨0, true, "", 0, 0⟩, fun _ => "T"⟩
      0 ⟨[("a.md", "unit test a")], [], []⟩ "a.md" 0 false true 0).1.error =
      some "Task would modify 1 files (limit: 0)" := by
  have h := budget_branch_iff
    ⟨⟨.ran 0 "" "", .ran 0 "" "", .ran 0 "" "", .ran 0 "" ""⟩,
      fun _ => ⟨.ran 0 "" "", .ran 0 "" "", .ran 0 "" "", .ran 0 "" ""⟩,
      fun _ => none, fun _ => false, fun _ => ⟨0, true, "", 0, 0⟩, fun _ => "T"⟩
    0 ⟨[("a.md", "unit test a")], [], []⟩ "a.md" 0 false true 0 rfl
  exact ((h.2.1 (by decide)).2.2).trans (by decide)

/-- Whether an attempt succeeds is decided by the environment alone:
`_execute_task_safely` never branches on the store's contents. -/
theorem exec_success_eq (env : YoloEnv) (i : Nat) (st : TaskStore) (name : String)
    (maxFiles : Int) (strictV skipV : Bool) (ck : Nat) :
    (execute_task_safely env i st name maxFiles strictV skipV ck).1.success =
      attemptOK env maxFiles strictV skipV i := by
  unfold execute_task_safely attemptOK
  cases hexc : env.excAt i <;> dsimp only
  · by_cases hb : estimated_files > maxFiles
    · rw [if_pos hb, decide_eq_true hb]
      simp
    · rw [if_neg hb, decide_eq_false hb]
      split_ifs with h2 h3 <;> simp_all
  · split_ifs <;> simp

/-- `_execute_task_safely` only ever moves the file it was given: lookups
of any other name, in any directory, are unchanged. -/
theorem exec_preserves (env : YoloEnv) (i : Nat) (st : TaskStore) (name : String)
    (maxFiles : Int) (strictV skipV : Bool) (ck : Nat) (d : Dir) (n : String)
    (h : n ≠ name) :
    lookupFile (execute_task_safely env i st name maxFiles strictV skipV ck).2.1 d n =
      lookupFile st d n := by
  have hp : ∀ (st' : TaskStore) (d0 : Dir) (s0 : String) (a0 : Bool) (g0 : GitEnv)
      (t0 : String) (d1 : Dir),
      lookupFile (move_task st' d0 name s0 a0 g0 t0).2 d1 n = lookupFile st' d1 n :=
    fun st' d0 s0 a0 g0 t0 d1 => move_task_preserves st' d0 name s0 a0 g0 t0 d1 n h
  unfold execute_task_safely
  cases env.excAt i <;> dsimp only <;> split_ifs <;> simp [hp]

/-- The candidate loop only ever appends names drawn, in order, from the
listing it scans. -/
theorem findLoop_sublist (maxTasks : Int) (cf : Option String) :
    ∀ (l : List (String × String)) (acc : List String),
      ∃ s, findLoop maxTasks cf l acc = acc ++ s ∧ s.Sublist (l.map Prod.fst) := by
  intro l
  induction l with
  | nil =>
    intro acc
    exact ⟨[], by simp [findLoop]⟩
  | cons p t ih =>
    intro acc
    obtain ⟨k, v⟩ := p
    unfold findLoop
    dsimp only
    split_ifs with h1 h2 h3
    · exact ⟨[], by simp⟩
    · obtain ⟨s, hs, hsub⟩ := ih (acc ++ [k])
      refine ⟨k :: s, ?_, ?_⟩
      · rw [hs]
        simp
      · simpa using hsub.cons₂ k
    · obtain ⟨s, hs, hsub⟩ := ih acc
      exact ⟨s, hs, by simpa using hsub.cons _⟩
    · obtain ⟨s, hs, hsub⟩ := ih acc
      exact ⟨s, hs, by simpa using hsub.cons _⟩

/-- With distinct names in the todo listing, the selected candidates are
distinct. -/
theorem find_yolo_tasks_nodup (st : TaskStore) (maxTasks : Int) (cf : Option String)
    (h : ((globMd st.todo).map Prod.fst).Nodup) :
    (find_yolo_tasks st maxTasks cf).Nodup := by
  obtain ⟨s, hs, hsub⟩ := findLoop_sublist maxTasks cf (globMd st.todo) []
  unfold find_yolo_tasks
  rw [hs]
  simpa using hsub.nodup h

/-- The fail-fast property of the per-candidate loop: if the first `K - 1`
attempts succeed and the `K`-th fails (with the deadline never firing
through attempt `K`), the loop attempts exactly `K` tasks, records exactly
one failure, and every candidate beyond the `K`-th is untouched in every
directory. -/
theorem yoloLoop_fail_fast (env : YoloEnv) (maxFiles : Int) (strictV skipV : Bool) :
    ∀ (K : Nat) (tasks : List String) (i : Nat) (r : YoloResults) (st : TaskStore) (ck : Nat),
      1 ≤ K → K ≤ tasks.length → tasks.Nodup →
      (∀ j, j < K → env.timeHit (i + j) = false) →
      (∀ j, j + 1 < K → attemptOK env maxFiles strictV skipV (i + j) = true) →
      attemptOK env maxFiles strictV skipV (i + (K - 1)) = false →
      (yoloLoop env false maxFiles strictV skipV tasks i r st ck).1.tasks_attempted =
        r.tasks_attempted + K ∧
      (yoloLoop env false maxFiles strictV skipV tasks i r st ck).1.tasks_failed =
        r.tasks_failed + 1 ∧
      (∀ n ∈ tasks.drop K, ∀ d : Dir,
        lookupFile (yoloLoop env false maxFiles strictV skipV tasks i r st ck).2 d n =
          lookupFile st d n) := by
  intro K
  induction K with
  | zero =>
    intro tasks i r st ck h1
    exact absurd h1 (by omega)
  | succ K ih =>
    intro tasks i r st ck hK hlen hnodup htime hok hfail
    cases tasks with
    | nil => simp at hlen
    | cons name rest =>
      have ht0 : env.timeHit i = false := by simpa using htime 0 (by omega)
      unfold yoloLoop
      rw [if_neg (by simp [ht0]), if_neg (by simp)]
      cases K with
      | zero =>
        have hsf : (execute_task_safely env i st name maxFiles strictV skipV ck).1.success =
            false := by
          rw [exec_success_eq]
          simpa using hfail
        rw [if_neg (by simp [hsf])]
        refine ⟨rfl, rfl, ?_⟩
        intro n hn d
        have hn' : n ∈ rest := by simpa using hn
        have hnn : n ≠ name := by
          rintro rfl
          exact (List.nodup_cons.mp hnodup).1 hn'
        exact exec_preserves env i st name maxFiles strictV skipV ck d n hnn
      | succ K' =>
        have hs : (execute_task_safely env i st name maxFiles strictV skipV ck).1.success =
            true := by
          rw [exec_success_eq]
          simpa using hok 0 (by omega)
        rw [if_pos hs]
        have hlen' : K' + 1 ≤ rest.length := by
          simp only [List.length_cons] at hlen
          omega
        obtain ⟨IH1, IH2, IH3⟩ := ih rest (i + 1) _ _ _ (by omega) hlen'
          (List.nodup_cons.mp hnodup).2
          (fun j hj => by
            have := htime (j + 1) (by omega)
            rwa [show i + (j + 1) = i + 1 + j by omega] at this)
          (fun j hj => by
            have := hok (j + 1) (by omega)
            rwa [show i + (j + 1) = i + 1 + j by omega] at this)
          (by
            have := hfail
            rwa [show i + (K' + 1 + 1 - 1) = i + 1 + (K' + 1 - 1) by omega] at this)
        refine ⟨?_, ?_, ?_⟩
        · rw [IH1]
          dsimp only
          omega
        · rw [IH2]
        · intro n hn d
          have hn' : n ∈ rest.drop (K' + 1) := by simpa using hn
          have hnn : n ≠ name := by
            rintro rfl
            exact (List.nodup_cons.mp hnodup).1 (List.mem_of_mem_drop hn')
          rw [IH3 n hn' d]
          exact exec_preserves env i st name maxFiles strictV skipV ck d n hnn

/-- Fail-fast for the selection-plus-loop phase, starting from a result
record with zero attempts and zero failures. -/
theorem yoloRun_fail_fast (maxTasks : Int) (cf : Option String) (maxFiles : Int)
    (strictV skipV : Bool) (env : YoloEnv) (st : TaskStore) (r : YoloResults) (K : Nat)
    (hr1 : r.tasks_attempted = 0) (hr2 : r.tasks_failed = 0)
    (hnodup : ((globMd st.todo).map Prod.fst).Nodup)
    (hK : 1 ≤ K) (hlen : K ≤ (find_yolo_tasks st maxTasks cf).length)
    (htime : ∀ j, j < K → env.timeHit j = false)
    (hok : ∀ j, j + 1 < K → attemptOK env maxFiles strictV skipV j = true)
    (hfail : attemptOK env maxFiles strictV skipV (K - 1) = false) :
    (yoloRun maxTasks cf false maxFiles strictV skipV env st r).1.tasks_attempted = K ∧
    (yoloRun maxTasks cf false maxFiles strictV skipV env st r).1.tasks_failed = 1 ∧
    ∀ n ∈ (find_yolo_tasks st maxTasks cf).drop K, ∀ d : Dir,
      lookupFile (yoloRun maxTasks cf false maxFiles strictV skipV env st r).2 d n =
        lookupFile st d n := by
  have hnil : find_yolo_tasks st maxTasks cf ≠ [] := by
    intro h0
    rw [h0] at hlen
    simp at hlen
    omega
  unfold yoloRun
  rw [if_neg (by simpa [List.isEmpty_iff] using hnil)]
  obtain ⟨H1, H2, H3⟩ := yoloLoop_fail_fast env maxFiles strictV skipV K
    (find_yolo_tasks st maxTasks cf) 0 r st 0 hK hlen
    (find_yolo_tasks_nodup st maxTasks cf hnodup)
    (fun j hj => by simpa using htime j hj)
    (fun j hj => by simpa using hok j hj)
    (by simpa using hfail)
  exact ⟨by rw [H1, hr1, Nat.zero_add], by rw [H2, hr2, Nat.zero_add], H3⟩

/-- Claim C6: when the session's `K`-th attempted task fails (unexpected
error, budget trip, or post-task validation failure, as `attemptOK`
captures) after `K - 1` successes, the session halts at once:
`tasks_attempted = K`, `tasks_failed = 1`, and every selected candidate
after the `K`-th is never attempted or mutated — its lookup in every
directory is unchanged. -/
theorem yolo_fail_fast (maxTasks : Int) (cf : Option String) (maxFiles : Int)
    (strictV skipV : Bool) (env : YoloEnv) (st : TaskStore) (K : Nat)
    (hpre : skipV = true ∨ (runVal strictV env.preChecks).success = true)
    (hnodup : ((globMd st.todo).map Prod.fst).Nodup)
    (hK : 1 ≤ K) (hlen : K ≤ (find_yolo_tasks st maxTasks cf).length)
    (htime : ∀ j, j < K → env.timeHit j = false)
    (hok : ∀ j, j + 1 < K → attemptOK env maxFiles strictV skipV j = true)
    (hfail : attemptOK env maxFiles strictV skipV (K - 1) = false) :
    (yolo_mode maxTasks cf false maxFiles strictV skipV env st).1.tasks_attempted = K ∧
    (yolo_mode maxTasks cf false maxFiles strictV skipV env st).1.tasks_failed = 1 ∧
    ∀ n ∈ (find_yolo_tasks st maxTasks cf).drop K, ∀ d : Dir,
      lookupFile (yolo_mode maxTasks cf false maxFiles strictV skipV env st).2 d n =
        lookupFile st d n := by
  unfold yolo_mode
  by_cases hskip : skipV = true
  · subst hskip
    rw [if_neg (by simp)]
    exact yoloRun_fail_fast maxTasks cf maxFiles strictV true env st _ K rfl rfl hnodup
      hK hlen htime hok hfail
  · have hskipF : skipV = false := by
      revert hskip
      cases skipV <;> simp
    subst hskipF
    have hsucc : (runVal strictV env.preChecks).success = true :=
      hpre.resolve_left (by simp)
    rw [if_pos (by simp)]
    dsimp only
    rw [if_neg (by simp [hsucc])]
    exact yoloRun_fail_fast maxTasks cf maxFiles strictV false env st _ K rfl rfl hnodup
      hK hlen htime hok hfail

/-- Witness for C6: in a concrete three-candidate session (validation
skipped) whose second attempt raises an unexpected error, exactly two
tasks are attempted, one failure is recorded, and the third candidate is
still in `todo` with its original content. -/
theorem yolo_fail_fast_witness :
    (yolo_mode 5 none false 10 false true demoEnv demoStore).1.tasks_attempted = 2 ∧
    (yolo_mode 5 none false 10 false true demoEnv demoStore).1.tasks_failed = 1 ∧
    lookupFile (yolo_mode 5 none false 10 false true demoEnv demoStore).2 .todo "c.md" =
      some "unit test c" := by
  have h := yolo_fail_fast 5 none 10 false true demoEnv demoStore 2 (Or.inl rfl)
    (by decide) (by omega) (by decide) (by decide)
    (by
      intro j hj
      have hj0 : j = 0 := by omega
      subst hj0
      decide)
    (by decide)
  exact ⟨h.1, h.2.1, (h.2.2 "c.md" (by decide) .todo).trans (by decide)⟩

end ManageTasks
